import Mathlib

/-!
Verification of the ballistic dynamics engine of the
Signals-and-Systems-lab repository (file `Ballistic simulation.py`,
class `BallisticSimulator`).

The engine models projectile motion under gravity, linear drag and wind
as a discrete-time linear dynamical system over the combined state
`[position; velocity]` (a 4-vector).  We embed the numeric core in exact
rational arithmetic: every quantity the Python code computes with
double-precision floats is modelled as a rational number, so the exact
equalities proved here imply the floating tolerances the specification
allows.  The 4-dimensional state space is indexed by `Fin 2 ⊕ Fin 2`
(the first two coordinates are the position block, the last two the
velocity block), so the source's `np.block` construction is
`Matrix.fromBlocks`, `np.concatenate` on 2-vectors is `Sum.elim`, and
the slices `F[:2, :2]`, `F[:2, 2:]`, `j[:2]` are the corresponding
block projections.
-/

namespace Ballistic

/-- The 4-dimensional combined state index: `Sum.inl` indexes the two
position coordinates, `Sum.inr` the two velocity coordinates. -/
abbrev StateIx : Type := Fin 2 ⊕ Fin 2

/-- The flat parameter record consumed by the engine
(`p0`, `v0`, `w`, `eta`, `m`, `g`, `h`, `T` of the source's params dict;
the optional display label has no semantic effect and is omitted). -/
structure SimulationParameters where
  p0 : ℚ × ℚ
  v0 : ℚ × ℚ
  w : ℚ × ℚ
  eta : ℚ
  m : ℚ
  g : ℚ × ℚ
  h : ℚ
  T : ℕ
deriving DecidableEq

/-- Per-step velocity retention coefficient `1 - h·eta/m`
(local variable `drag_factor` of `compute_dynamics`). -/
def dragFactor (p : SimulationParameters) : ℚ :=
  1 - p.h * p.eta / p.m

/-- Source method `BallisticSimulator.compute_dynamics`: builds the 4×4
transition matrix `A = np.block [[I, h·I], [0, drag_factor·I]]` and the
forcing 4-vector `b = np.concatenate [0, h·(g + (eta/m)·w)]`. -/
def compute_dynamics (p : SimulationParameters) :
    Matrix StateIx StateIx ℚ × (StateIx → ℚ) :=
  let I : Matrix (Fin 2) (Fin 2) ℚ := 1
  let hI : Matrix (Fin 2) (Fin 2) ℚ := p.h • I
  let A := Matrix.fromBlocks I hI 0 (dragFactor p • I)
  let b : StateIx → ℚ :=
    Sum.elim ![0, 0]
      ![p.h * (p.g.1 + (p.eta / p.m) * p.w.1),
        p.h * (p.g.2 + (p.eta / p.m) * p.w.2)]
  (A, b)

/-- The initial combined state `x = np.concatenate([p0, v0])`. -/
def initState (p : SimulationParameters) : StateIx → ℚ :=
  Sum.elim ![p.p0.1, p.p0.2] ![p.v0.1, p.v0.2]

/-- The combined state after `t` iterations of the loop body
`x = A @ x + b` of `BallisticSimulator.simulate`, starting from
`initState`. -/
def stateAfter (p : SimulationParameters) : ℕ → StateIx → ℚ
  | 0 => initState p
  | t + 1 =>
      (compute_dynamics p).1.mulVec (stateAfter p t) + (compute_dynamics p).2

/-- Source method `BallisticSimulator.simulate`: the trajectory array of
`T + 1` rows; row 0 is `p0` and row `t` is `x[:2]` after `t` executions
of `x = A @ x + b`. -/
def simulate (p : SimulationParameters) : List (ℚ × ℚ) :=
  (List.range (p.T + 1)).map fun t =>
    (stateAfter p t (Sum.inl 0), stateAfter p t (Sum.inl 1))

/-- Local `F = np.linalg.matrix_power(A, T)` inside
`BallisticSimulator.calculate_optimal_v0`. -/
def matrixPowerF (p : SimulationParameters) : Matrix StateIx StateIx ℚ :=
  (compute_dynamics p).1 ^ p.T

/-- Local `j = sum(np.linalg.matrix_power(A, k) @ b for k in range(T))`
inside `BallisticSimulator.calculate_optimal_v0`. -/
def forcingSum (p : SimulationParameters) : StateIx → ℚ :=
  ∑ k ∈ Finset.range p.T,
    ((compute_dynamics p).1 ^ k).mulVec (compute_dynamics p).2

/-- The sensitivity block `C = F[:2, 2:]` of
`BallisticSimulator.calculate_optimal_v0` (position rows, velocity
columns of the T-step transition matrix). -/
def sensC (p : SimulationParameters) : Matrix (Fin 2) (Fin 2) ℚ :=
  (matrixPowerF p).toBlocks₁₂

/-- The offset `d = F[:2, :2] @ p0 + j[:2]` of
`BallisticSimulator.calculate_optimal_v0`. -/
def offsetD (p : SimulationParameters) : Fin 2 → ℚ :=
  (matrixPowerF p).toBlocks₁₁.mulVec ![p.p0.1, p.p0.2] +
    fun i => forcingSum p (Sum.inl i)

/-- Determinant of a 2×2 rational matrix (the quantity whose vanishing
makes `np.linalg.inv` raise `LinAlgError` on an exactly singular
matrix). -/
def det2 (M : Matrix (Fin 2) (Fin 2) ℚ) : ℚ :=
  M 0 0 * M 1 1 - M 0 1 * M 1 0

/-- The exact 2×2 inverse computed by `np.linalg.inv` when the matrix is
nonsingular: adjugate over determinant. -/
def inv2 (M : Matrix (Fin 2) (Fin 2) ℚ) : Matrix (Fin 2) (Fin 2) ℚ :=
  (det2 M)⁻¹ • !![M 1 1, -M 0 1; -M 1 0, M 0 0]

/-- Source method `BallisticSimulator.calculate_optimal_v0`: computes
`F`, `j`, `C = F[:2, 2:]`, `d = F[:2, :2] @ p0 + j[:2]`, then solves
`v0 = np.linalg.inv(C) @ (target - d)`; the `np.linalg.LinAlgError`
raised by `np.linalg.inv` on a singular `C` is re-raised as the distinct
unreachable-target failure (a `ValueError` in the source), modelled as
`Except.error`. -/
def calculate_optimal_v0 (p : SimulationParameters) (target : ℚ × ℚ) :
    Except String (ℚ × ℚ) :=
  if det2 (sensC p) = 0 then
    Except.error "unsolvable: target position unreachable or parameters incompatible"
  else
    let v0 := (inv2 (sensC p)).mulVec ![target.1 - offsetD p 0, target.2 - offsetD p 1]
    Except.ok (v0 0, v0 1)

/-- Source method `BallisticSimulator.add_simulation`:
`self.simulations.append(params)` on the registry list. -/
def add_simulation (sims : List SimulationParameters) (p : SimulationParameters) :
    List SimulationParameters :=
  sims ++ [p]

/-- Source method `BallisticSimulator.clear_simulations`:
`self.simulations.clear()` on the registry list. -/
def clear_simulations (_sims : List SimulationParameters) :
    List SimulationParameters :=
  []

/-- The per-step recurrence exactly as the specification's formula
dictates, written componentwise: positions advance by `h` times the
velocity, velocities are scaled by the drag factor and receive the
per-step forcing `h·(g + (eta/m)·w)`.  Used to check that `simulate`
reproduces this formula unmodified (no clamping, no substituted
defaults), including for unstable drag factors. -/
def specStep (p : SimulationParameters) (x : (ℚ × ℚ) × (ℚ × ℚ)) :
    (ℚ × ℚ) × (ℚ × ℚ) :=
  ((x.1.1 + p.h * x.2.1, x.1.2 + p.h * x.2.2),
   (dragFactor p * x.2.1 + p.h * (p.g.1 + p.eta / p.m * p.w.1),
    dragFactor p * x.2.2 + p.h * (p.g.2 + p.eta / p.m * p.w.2)))

/-- The position/velocity pair after `t` applications of the
specification's recurrence, starting from `(p0, v0)`. -/
def specState (p : SimulationParameters) : ℕ → (ℚ × ℚ) × (ℚ × ℚ)
  | 0 => (p.p0, p.v0)
  | t + 1 => specStep p (specState p t)

/-- A drag-free concrete parameter record used as evaluation input:
`p0 = (0,0)`, `v0 = (1,1)`, no wind, `eta = 0`, `m = 1`, `g = (0,-1)`,
`h = 1`, `T = 1`. -/
def dragFreeParams : SimulationParameters :=
  ⟨(0, 0), (1, 1), (0, 0), 0, 1, (0, -1), 1, 1⟩

/-- A concrete parameter record whose drag factor is `-1`
(`h = 1`, `eta = 2`, `m = 1`), so with `T = 2` the sensitivity matrix
`C` is exactly the zero matrix. -/
def singularParams : SimulationParameters :=
  ⟨(0, 0), (1, 1), (0, 0), 2, 1, (0, -1), 1, 2⟩

/-- A concrete parameter record whose drag factor is `-2`
(`h = 1`, `eta = 3`, `m = 1`), outside the stability band `[-1, 1]`. -/
def unstableParams : SimulationParameters :=
  ⟨(0, 0), (1, 1), (0, 0), 3, 1, (0, -1), 1, 2⟩

/-- Matrix-vector multiplication distributes over finite sums of
vectors. -/
theorem mulVec_finset_sum {ι : Type} (A : Matrix StateIx StateIx ℚ)
    (s : Finset ι) (f : ι → StateIx → ℚ) :
    A.mulVec (∑ k ∈ s, f k) = ∑ k ∈ s, A.mulVec (f k) := by
  exact map_sum (Matrix.mulVecLin A) f s

/-- Closed form of the step-by-step state: after `t` iterations of
`x = A @ x + b`, the state is `A^t · x₀ + Σ_{k<t} A^k · b`. -/
theorem stateAfter_closed_form (p : SimulationParameters) (t : ℕ) :
    stateAfter p t =
      ((compute_dynamics p).1 ^ t).mulVec (initState p) +
        ∑ k ∈ Finset.range t,
          ((compute_dynamics p).1 ^ k).mulVec (compute_dynamics p).2 := by
  induction t with
  | zero => simp [stateAfter, Matrix.one_mulVec]
  | succ t ih =>
      have hstep : stateAfter p (t + 1) =
          (compute_dynamics p).1.mulVec (stateAfter p t) + (compute_dynamics p).2 := rfl
      rw [hstep, ih, Matrix.mulVec_add, Matrix.mulVec_mulVec, ← pow_succ',
        mulVec_finset_sum]
      rw [Finset.sum_range_succ' (fun k => ((compute_dynamics p).1 ^ k).mulVec (compute_dynamics p).2)]
      simp only [Matrix.mulVec_mulVec, ← pow_succ', pow_zero, Matrix.one_mulVec]
      abel

/-- Each trajectory entry is the position block of the corresponding
iterated state. -/
theorem simulate_getElem (p : SimulationParameters) (t : ℕ) (ht : t ≤ p.T) :
    (simulate p)[t]? =
      some (stateAfter p t (Sum.inl 0), stateAfter p t (Sum.inl 1)) := by
  have htlt : t < p.T + 1 := Nat.lt_succ_of_le ht
  simp [simulate, List.getElem?_map, List.getElem?_range htlt]

/-- Value of the block-index equivalence at flat index 0. -/
theorem finSum0 : (finSumFinEquiv.symm : Fin (2 + 2) → StateIx) 0 = Sum.inl 0 := by
  decide

/-- Value of the block-index equivalence at flat index 1. -/
theorem finSum1 : (finSumFinEquiv.symm : Fin (2 + 2) → StateIx) 1 = Sum.inl 1 := by
  decide

/-- Value of the block-index equivalence at flat index 2. -/
theorem finSum2 : (finSumFinEquiv.symm : Fin (2 + 2) → StateIx) 2 = Sum.inr 0 := by
  decide

/-- Value of the block-index equivalence at flat index 3. -/
theorem finSum3 : (finSumFinEquiv.symm : Fin (2 + 2) → StateIx) 3 = Sum.inr 1 := by
  decide

/-- The builder's output, read back entry by entry through the flat
4×4 layout: `A` is exactly
`[[1,0,h,0],[0,1,0,h],[0,0,1-h·eta/m,0],[0,0,0,1-h·eta/m]]` and `b` is
exactly `[0, 0, h·(g₁+(eta/m)·w₁), h·(g₂+(eta/m)·w₂)]`. -/
theorem compute_dynamics_flat_eq (p : SimulationParameters) :
    Matrix.reindex finSumFinEquiv finSumFinEquiv (compute_dynamics p).1 =
      !![1, 0, p.h, 0;
         0, 1, 0, p.h;
         0, 0, 1 - p.h * p.eta / p.m, 0;
         0, 0, 0, 1 - p.h * p.eta / p.m] ∧
    (compute_dynamics p).2 ∘ (finSumFinEquiv.symm : Fin (2 + 2) → StateIx) =
      ![0, 0, p.h * (p.g.1 + p.eta / p.m * p.w.1),
            p.h * (p.g.2 + p.eta / p.m * p.w.2)] := by
  constructor
  · ext i j
    fin_cases i <;> fin_cases j <;>
      simp [compute_dynamics, Matrix.reindex_apply, Matrix.submatrix_apply,
        finSum0, finSum1, finSum2, finSum3, Matrix.fromBlocks, dragFactor,
        Matrix.one_apply, Matrix.vecHead, Matrix.vecTail]
  · funext i
    fin_cases i <;>
      simp [compute_dynamics, finSum0, finSum1, finSum2, finSum3]

/-- Closed form of the T-th power of the transition matrix: the
geometric-series structure of the block-triangular `A`. -/
theorem dyn_pow_closed_form (p : SimulationParameters) (t : ℕ) :
    (compute_dynamics p).1 ^ t =
      Matrix.fromBlocks 1
        ((p.h * ∑ k ∈ Finset.range t, dragFactor p ^ k) • 1) 0
        (dragFactor p ^ t • 1) := by
  induction t with
  | zero => simp [Matrix.fromBlocks_one]
  | succ t ih =>
      have hA : (compute_dynamics p).1 =
          Matrix.fromBlocks 1 (p.h • 1) 0 (dragFactor p • 1) := rfl
      rw [pow_succ, ih, hA, Matrix.fromBlocks_multiply, Matrix.fromBlocks_inj]
      refine ⟨by simp, ?_, by simp, by simp [smul_smul, pow_succ, mul_comm]⟩
      simp only [Matrix.smul_mul, Matrix.mul_smul, smul_smul, Matrix.one_mul,
        Matrix.mul_one, one_mul]
      rw [← add_smul, geom_sum_succ]
      congr 1
      ring

/-- The sensitivity matrix is the scalar `h · Σ_{k<T} drag_factor^k`
times the 2×2 identity. -/
theorem sensC_closed_form (p : SimulationParameters) :
    sensC p = (p.h * ∑ k ∈ Finset.range p.T, dragFactor p ^ k) • 1 := by
  rw [sensC, matrixPowerF, dyn_pow_closed_form, Matrix.toBlocks_fromBlocks₁₂]

/-- Multiplying by a 2×2 matrix after its exact inverse is the identity
whenever the determinant is nonzero. -/
theorem mul2_inv2_cancel (M : Matrix (Fin 2) (Fin 2) ℚ) (h : det2 M ≠ 0)
    (y : Fin 2 → ℚ) :
    M.mulVec ((inv2 M).mulVec y) = y := by
  have h' : M 0 0 * M 1 1 - M 0 1 * M 1 0 ≠ 0 := by simpa [det2] using h
  funext i
  fin_cases i <;>
    (simp [inv2, det2, Matrix.mulVec, Matrix.dotProduct, Fin.sum_univ_two]
     field_simp
     ring)

/-- The position block of the state after `T` steps decomposes into the
velocity-independent offset `d` plus the sensitivity matrix applied to
the initial velocity. -/
theorem stateAfter_T_inl (p : SimulationParameters) (i : Fin 2) :
    stateAfter p p.T (Sum.inl i) =
      offsetD p i + (sensC p).mulVec ![p.v0.1, p.v0.2] i := by
  have hx : initState p = Sum.elim ![p.p0.1, p.p0.2] ![p.v0.1, p.v0.2] := rfl
  have hsum : (∑ k ∈ Finset.range p.T,
      ((compute_dynamics p).1 ^ k).mulVec (compute_dynamics p).2) = forcingSum p := rfl
  have hF : ((compute_dynamics p).1 ^ p.T) = matrixPowerF p := rfl
  rw [stateAfter_closed_form, hsum, hF, hx,
    ← Matrix.fromBlocks_toBlocks (matrixPowerF p), Matrix.fromBlocks_mulVec]
  simp [offsetD, sensC, Matrix.fromBlocks_toBlocks]
  ring

/-- When the solver succeeds, the returned velocity is the exact
solution of the 2×2 linear system `C · v0 = target - d`. -/
theorem calculate_optimal_v0_ok_eq (p : SimulationParameters) (target : ℚ × ℚ)
    (v : ℚ × ℚ) (hC : det2 (sensC p) ≠ 0)
    (h : calculate_optimal_v0 p target = Except.ok v) :
    (![v.1, v.2] : Fin 2 → ℚ) =
      (inv2 (sensC p)).mulVec ![target.1 - offsetD p 0, target.2 - offsetD p 1] := by
  rw [calculate_optimal_v0, if_neg hC] at h
  have hv := Except.ok.inj h
  funext i
  fin_cases i <;> simp [← hv]

/-- The matrix-form state of `simulate` coincides with the
componentwise recurrence written exactly as in the specification. -/
theorem stateAfter_eq_specState (p : SimulationParameters) (t : ℕ) :
    stateAfter p t =
      Sum.elim ![(specState p t).1.1, (specState p t).1.2]
               ![(specState p t).2.1, (specState p t).2.2] := by
  induction t with
  | zero =>
      funext i
      cases i with
      | inl i => fin_cases i <;> rfl
      | inr i => fin_cases i <;> rfl
  | succ t ih =>
      have hA : (compute_dynamics p).1 =
          Matrix.fromBlocks 1 (p.h • 1) 0 (dragFactor p • 1) := rfl
      have hb : (compute_dynamics p).2 =
          Sum.elim ![0, 0]
            ![p.h * (p.g.1 + (p.eta / p.m) * p.w.1),
              p.h * (p.g.2 + (p.eta / p.m) * p.w.2)] := rfl
      show (compute_dynamics p).1.mulVec (stateAfter p t) + (compute_dynamics p).2 = _
      rw [ih, hA, hb, Matrix.fromBlocks_mulVec]
      funext i
      cases i with
      | inl i =>
          fin_cases i <;>
            (simp [specState, specStep, Matrix.mulVec, Matrix.dotProduct,
              Fin.sum_univ_two, Matrix.one_apply, Matrix.vecHead, Matrix.vecTail]
             try ring)
      | inr i =>
          fin_cases i <;>
            (simp [specState, specStep, Matrix.mulVec, Matrix.dotProduct,
              Fin.sum_univ_two, Matrix.one_apply, Matrix.vecHead, Matrix.vecTail]
             try ring)

/-- Determinant of a scalar multiple of the 2×2 identity. -/
theorem det2_smul_one (c : ℚ) :
    det2 (c • (1 : Matrix (Fin 2) (Fin 2) ℚ)) = c * c := by
  simp [det2, Matrix.smul_apply, Matrix.one_apply]

/-- Determinant of the 2×2 identity. -/
theorem det2_one : det2 (1 : Matrix (Fin 2) (Fin 2) ℚ) = 1 := by
  simp [det2, Matrix.one_apply]

/-- Determinant of the 2×2 zero matrix. -/
theorem det2_zero : det2 (0 : Matrix (Fin 2) (Fin 2) ℚ) = 0 := by
  simp [det2]

/-- At the drag-free record the sensitivity matrix is the identity. -/
theorem dragFree_sensC : sensC dragFreeParams = 1 := by
  rw [sensC_closed_form]
  norm_num [dragFactor, dragFreeParams]

/-- At the drag-free record the sensitivity determinant is nonzero. -/
theorem dragFree_det2 : det2 (sensC dragFreeParams) ≠ 0 := by
  rw [dragFree_sensC, det2_one]
  norm_num

/-- At the drag-factor `-1`, horizon-2 record the sensitivity
determinant vanishes exactly. -/
theorem singular_det2 : det2 (sensC singularParams) = 0 := by
  rw [sensC_closed_form]
  norm_num [dragFactor, singularParams, Finset.sum_range_succ, det2_smul_one,
    det2_zero]

/-- At the drag-free record the velocity-independent offset `d` is
zero. -/
theorem dragFree_offsetD : offsetD dragFreeParams = ![0, 0] := by
  funext i
  rw [offsetD, matrixPowerF, dyn_pow_closed_form]
  fin_cases i <;>
    (norm_num [dragFreeParams, dragFactor, forcingSum, compute_dynamics,
      Finset.sum_range_one, Matrix.toBlocks_fromBlocks₁₁, Matrix.one_mulVec,
      Matrix.mulVec, Matrix.dotProduct, Fin.sum_univ_two, Matrix.one_apply]
     try decide)

/-- At the drag-free record the solver returns the target itself as the
initial velocity (the horizon is one unit step from the origin with
zero offset). -/
theorem dragFree_solve :
    calculate_optimal_v0 dragFreeParams (2, 3) = Except.ok (2, 3) := by
  rw [calculate_optimal_v0, if_neg dragFree_det2]
  simp [dragFree_sensC, dragFree_offsetD, inv2, det2_one, Matrix.mulVec,
    Matrix.dotProduct, Fin.sum_univ_two, Matrix.one_apply]

/-- C1.  Inversion round-trip: for every valid parameter record
(`m > 0`, `h > 0`, `T ≥ 1`, `eta ≥ 0`) with invertible sensitivity
matrix `C`, re-simulating with the initial velocity returned by
`calculate_optimal_v0` hits the target at step `T` (exactly, in exact
arithmetic, hence within the `1e-6` tolerance the spec allows). -/
theorem inversion_round_trip (p : SimulationParameters) (target v : ℚ × ℚ)
    (hm : 0 < p.m) (hh : 0 < p.h) (hT : 1 ≤ p.T) (heta : 0 ≤ p.eta)
    (hC : det2 (sensC p) ≠ 0)
    (hsolve : calculate_optimal_v0 p target = Except.ok v) :
    (simulate { p with v0 := v })[p.T]? = some target := by
  rw [simulate_getElem { p with v0 := v } p.T le_rfl]
  have hstate : ∀ i : Fin 2,
      stateAfter { p with v0 := v } p.T (Sum.inl i) =
        offsetD p i + (sensC p).mulVec ![v.1, v.2] i := fun i =>
    stateAfter_T_inl { p with v0 := v } i
  have hveq := calculate_optimal_v0_ok_eq p target v hC hsolve
  have hcancel := mul2_inv2_cancel (sensC p) hC
      ![target.1 - offsetD p 0, target.2 - offsetD p 1]
  have h0 : stateAfter { p with v0 := v } p.T (Sum.inl 0) = target.1 := by
    rw [hstate 0, hveq, hcancel]
    simp only [Matrix.cons_val_zero]
    ring
  have h1 : stateAfter { p with v0 := v } p.T (Sum.inl 1) = target.2 := by
    rw [hstate 1, hveq, hcancel]
    simp only [Matrix.cons_val_one, Matrix.head_cons]
    ring
  rw [h0, h1]

/-- Witness for C1 at the drag-free record and target `(2, 3)`. -/
theorem inversion_round_trip_eval :
    (simulate { dragFreeParams with v0 := (2, 3) })[dragFreeParams.T]? =
      some (2, 3) :=
  inversion_round_trip dragFreeParams (2, 3) (2, 3)
    (by norm_num [dragFreeParams]) (by norm_num [dragFreeParams])
    (by norm_num [dragFreeParams]) (by norm_num [dragFreeParams])
    dragFree_det2 dragFree_solve

/-- C2.  Closed-form / step-by-step equivalence: `F·x₀ + j`, with
`F = A^T` and `j = Σ_{k<T} A^k·b` computed by the power-series
accumulator, equals the state reached by `T` iterations of
`x = A·x + b` from `x₀ = [p0; v0]` — exactly, in exact arithmetic. -/
theorem closed_form_equivalence (p : SimulationParameters) (hT : 1 ≤ p.T) :
    (matrixPowerF p).mulVec (initState p) + forcingSum p =
      stateAfter p p.T :=
  (stateAfter_closed_form p p.T).symm

/-- Witness for C2 at the drag-free record. -/
theorem closed_form_equivalence_eval :
    1 ≤ dragFreeParams.T ∧
    (matrixPowerF dragFreeParams).mulVec (initState dragFreeParams) +
        forcingSum dragFreeParams =
      stateAfter dragFreeParams dragFreeParams.T :=
  ⟨by norm_num [dragFreeParams],
   closed_form_equivalence dragFreeParams (by norm_num [dragFreeParams])⟩

/-- C3.  Unreachable-target error: whenever the sensitivity matrix `C`
is singular (zero determinant — the exact-arithmetic reading of the
tolerance test), the solver returns the distinct unreachable-target
failure and never a silent numeric result; whenever `C` is invertible,
the solver succeeds. -/
theorem solver_singular_dichotomy (p : SimulationParameters)
    (target : ℚ × ℚ) :
    (det2 (sensC p) = 0 →
      calculate_optimal_v0 p target =
        Except.error
          "unsolvable: target position unreachable or parameters incompatible") ∧
    (det2 (sensC p) ≠ 0 →
      ∃ v, calculate_optimal_v0 p target = Except.ok v) := by
  constructor
  · intro h
    rw [calculate_optimal_v0, if_pos h]
  · intro h
    rw [calculate_optimal_v0, if_neg h]
    exact ⟨_, rfl⟩

/-- Witness for C3: the singular record fails, the drag-free record
succeeds. -/
theorem solver_singular_dichotomy_eval :
    calculate_optimal_v0 singularParams (1, 1) =
      Except.error
        "unsolvable: target position unreachable or parameters incompatible" ∧
    ∃ v, calculate_optimal_v0 dragFreeParams (1, 1) = Except.ok v :=
  ⟨(solver_singular_dichotomy singularParams (1, 1)).1 singular_det2,
   (solver_singular_dichotomy dragFreeParams (1, 1)).2 dragFree_det2⟩

/-- C4.  Recurrence consistency: for every `t` in `[1, T]`, the
trajectory entry at `t` is the position block of the state after
exactly `t` recurrence applications, that state is one step of
`x = A·x + b` past the state at `t - 1`, and it equals the closed form
`F_t·x₀ + j_t` at horizon `t` — exactly, hence within the spec's `1e-9`
relative tolerance. -/
theorem recurrence_consistency (p : SimulationParameters) (t : ℕ)
    (h1 : 1 ≤ t) (h2 : t ≤ p.T) :
    (simulate p)[t]? =
        some (stateAfter p t (Sum.inl 0), stateAfter p t (Sum.inl 1)) ∧
    stateAfter p t =
      (compute_dynamics p).1.mulVec (stateAfter p (t - 1)) +
        (compute_dynamics p).2 ∧
    stateAfter p t =
      ((compute_dynamics p).1 ^ t).mulVec (initState p) +
        ∑ k ∈ Finset.range t,
          ((compute_dynamics p).1 ^ k).mulVec (compute_dynamics p).2 := by
  refine ⟨simulate_getElem p t h2, ?_, stateAfter_closed_form p t⟩
  cases t with
  | zero => exact absurd h1 (by norm_num)
  | succ n => rfl

/-- Witness for C4 at the drag-free record and `t = 1`. -/
theorem recurrence_consistency_eval :
    (simulate dragFreeParams)[1]? =
        some (stateAfter dragFreeParams 1 (Sum.inl 0),
              stateAfter dragFreeParams 1 (Sum.inl 1)) ∧
    stateAfter dragFreeParams 1 =
      (compute_dynamics dragFreeParams).1.mulVec
          (stateAfter dragFreeParams (1 - 1)) +
        (compute_dynamics dragFreeParams).2 ∧
    stateAfter dragFreeParams 1 =
      ((compute_dynamics dragFreeParams).1 ^ 1).mulVec
          (initState dragFreeParams) +
        ∑ k ∈ Finset.range 1,
          ((compute_dynamics dragFreeParams).1 ^ k).mulVec
            (compute_dynamics dragFreeParams).2 :=
  recurrence_consistency dragFreeParams 1 le_rfl
    (by norm_num [dragFreeParams])

/-- C5.  Builder correctness: for every parameter record with `m > 0`
and `h > 0`, the builder returns exactly the closed-form 4×4 matrix
`[[I, h·I], [0, (1 - h·eta/m)·I]]` and 4-vector
`[0, h·(g + (eta/m)·w)]`, read back entry by entry through the flat
layout. -/
theorem builder_closed_form (p : SimulationParameters) (hm : 0 < p.m)
    (hh : 0 < p.h) :
    Matrix.reindex finSumFinEquiv finSumFinEquiv (compute_dynamics p).1 =
      !![1, 0, p.h, 0;
         0, 1, 0, p.h;
         0, 0, 1 - p.h * p.eta / p.m, 0;
         0, 0, 0, 1 - p.h * p.eta / p.m] ∧
    (compute_dynamics p).2 ∘ (finSumFinEquiv.symm : Fin (2 + 2) → StateIx) =
      ![0, 0, p.h * (p.g.1 + p.eta / p.m * p.w.1),
            p.h * (p.g.2 + p.eta / p.m * p.w.2)] :=
  compute_dynamics_flat_eq p

/-- Witness for C5 at the drag-free record. -/
theorem builder_closed_form_eval :
    Matrix.reindex finSumFinEquiv finSumFinEquiv
        (compute_dynamics dragFreeParams).1 =
      !![1, 0, dragFreeParams.h, 0;
         0, 1, 0, dragFreeParams.h;
         0, 0, 1 - dragFreeParams.h * dragFreeParams.eta / dragFreeParams.m, 0;
         0, 0, 0, 1 - dragFreeParams.h * dragFreeParams.eta / dragFreeParams.m] ∧
    (compute_dynamics dragFreeParams).2 ∘
        (finSumFinEquiv.symm : Fin (2 + 2) → StateIx) =
      ![0, 0,
        dragFreeParams.h *
          (dragFreeParams.g.1 +
            dragFreeParams.eta / dragFreeParams.m * dragFreeParams.w.1),
        dragFreeParams.h *
          (dragFreeParams.g.2 +
            dragFreeParams.eta / dragFreeParams.m * dragFreeParams.w.2)] :=
  builder_closed_form dragFreeParams (by norm_num [dragFreeParams])
    (by norm_num [dragFreeParams])

/-- C6.  Divergence faithfulness: `simulate` is total (it always
returns the full `T + 1`-point trajectory) and, even when the drag
factor lies outside `[-1, 1]`, each returned position is exactly the
one dictated by the recurrence formula — no error, no clamping, no
substituted defaults. -/
theorem divergence_faithfulness (p : SimulationParameters)
    (hdrag : 1 < |dragFactor p|) (t : ℕ) (ht : t ≤ p.T) :
    (simulate p).length = p.T + 1 ∧
    (simulate p)[t]? = some (specState p t).1 := by
  refine ⟨by simp [simulate], ?_⟩
  rw [simulate_getElem p t ht, stateAfter_eq_specState]
  simp

/-- Witness for C6 at the unstable record (drag factor `-2`). -/
theorem divergence_faithfulness_eval :
    (simulate unstableParams).length = unstableParams.T + 1 ∧
    (simulate unstableParams)[2]? = some (specState unstableParams 2).1 :=
  divergence_faithfulness unstableParams
    (by norm_num [dragFactor, unstableParams]) 2
    (by norm_num [unstableParams])

/-- C7.  Zeroth point: the first trajectory entry is exactly `p0`. -/
theorem zeroth_point (p : SimulationParameters) :
    (simulate p)[0]? = some p.p0 := by
  rw [simulate_getElem p 0 (Nat.zero_le _)]
  rfl

/-- C8.  Trajectory length: `simulate` returns exactly `T + 1`
points. -/
theorem trajectory_length (p : SimulationParameters) :
    (simulate p).length = p.T + 1 := by
  simp [simulate]

/-- C9.  Registry ordering: `add` appends at the end leaving all
earlier entries and their order unchanged, appending `[a, b, c]` to a
cleared registry lists them in exactly that order, and `clear` empties
the registry — no deduplication, no implicit eviction. -/
theorem registry_ordering (sims : List SimulationParameters)
    (a b c : SimulationParameters) :
    add_simulation sims a = sims ++ [a] ∧
    (add_simulation sims a).take sims.length = sims ∧
    add_simulation (add_simulation (add_simulation (clear_simulations sims) a) b)
        c = [a, b, c] ∧
    clear_simulations (add_simulation (add_simulation (add_simulation sims a) b)
        c) = [] := by
  refine ⟨rfl, ?_, rfl, rfl⟩
  simp [add_simulation, List.take_left]

/-- C10.  Drag-free solvability: with `eta = 0` the drag factor is
exactly 1, the sensitivity matrix is `T·h` times the identity — which
is invertible since `T ≥ 1` and `h > 0` — and the solver therefore
always succeeds. -/
theorem dragfree_solvable (p : SimulationParameters) (target : ℚ × ℚ)
    (heta : p.eta = 0) (hm : 0 < p.m) (hh : 0 < p.h) (hT : 1 ≤ p.T) :
    dragFactor p = 1 ∧
    sensC p = ((p.T : ℚ) * p.h) • 1 ∧
    det2 (sensC p) ≠ 0 ∧
    ∃ v, calculate_optimal_v0 p target = Except.ok v := by
  have hdf : dragFactor p = 1 := by simp [dragFactor, heta]
  have hs : sensC p = ((p.T : ℚ) * p.h) • 1 := by
    rw [sensC_closed_form, hdf]
    simp [mul_comm]
  have hTpos : (0 : ℚ) < (p.T : ℚ) := by exact_mod_cast hT
  have hne : (p.T : ℚ) * p.h ≠ 0 :=
    mul_ne_zero (ne_of_gt hTpos) (ne_of_gt hh)
  have hdet : det2 (sensC p) ≠ 0 := by
    rw [hs, det2_smul_one]
    exact mul_ne_zero hne hne
  refine ⟨hdf, hs, hdet, ?_⟩
  rw [calculate_optimal_v0, if_neg hdet]
  exact ⟨_, rfl⟩

/-- Witness for C10 at the drag-free record and target `(5, 5)`. -/
theorem dragfree_solvable_eval :
    dragFactor dragFreeParams = 1 ∧
    sensC dragFreeParams = ((dragFreeParams.T : ℚ) * dragFreeParams.h) • 1 ∧
    det2 (sensC dragFreeParams) ≠ 0 ∧
    ∃ v, calculate_optimal_v0 dragFreeParams (5, 5) = Except.ok v :=
  dragfree_solvable dragFreeParams (5, 5) (by norm_num [dragFreeParams])
    (by norm_num [dragFreeParams]) (by norm_num [dragFreeParams])
    (by norm_num [dragFreeParams])

end Ballistic
